import Mathlib

/-!
# Verification of the resume-coach heuristic pipeline

A shallow embedding of `resume_coach/agent.py` and the response handling of
`resume_coach/llm.py`.  Python strings are modelled as lists of characters
(`Str`), Python lists as Lean lists, dictionaries holding the parsed
structures as Lean structures.  Each definition mirrors one Python function
of the source; theorems about the specification's claims follow at the end
of the file.
-/

/-- Python strings are modelled as lists of characters. -/
abbrev Str := List Char

/-- Convenience conversion from a Lean string literal to `Str`. -/
def chars (s : String) : Str := s.toList

/-- The whitespace characters stripped by Python `str.strip()` (ASCII range). -/
def isPySpace (c : Char) : Bool :=
  c == ' ' || c == '\t' || c == '\n' || c == '\r' || c == '\x0b' || c == '\x0c'

/-- Strip characters satisfying `p` from both ends (Python `str.strip(chars)`). -/
def stripWith (p : Char → Bool) (s : Str) : Str :=
  ((s.dropWhile p).reverse.dropWhile p).reverse

/-- Python `str.strip()` with no argument: strip whitespace from both ends. -/
def pyStrip (s : Str) : Str := stripWith isPySpace s

/-- Split a string at every character satisfying `p`, keeping empty pieces
(the behaviour of `re.split` on a single-character class). -/
def splitOnPred (p : Char → Bool) : Str → List Str
  | [] => [[]]
  | c :: cs =>
    if p c then [] :: splitOnPred p cs
    else (c :: (splitOnPred p cs).headI) :: (splitOnPred p cs).tail

/-- Line-break characters for `str.splitlines` (the forms relevant here:
`\n`, `\r`; `\r\n` yields an intermediate empty piece which `_lines`
filters out, so the observable behaviour agrees with Python). -/
def isLineBreak (c : Char) : Bool := c == '\n' || c == '\r'

/-- `_lines` from `agent.py`: split into lines, strip each, drop empties. -/
def pyLines (text : Str) : List Str :=
  ((splitOnPred isLineBreak text).map pyStrip).filter (fun l => !l.isEmpty)

/-- Python `str.lower()` (character-wise; all text involved is ASCII). -/
def toLowerStr (s : Str) : Str := s.map Char.toLower

/-- Python `str.split()` with no argument: split on whitespace, drop empties. -/
def splitWords (s : Str) : List Str :=
  (splitOnPred isPySpace s).filter (fun w => !w.isEmpty)

/-- Substring test, `needle in haystack` on Python strings. -/
def containsSub (needle hay : Str) : Bool :=
  (List.range (hay.length + 1)).any (fun i => needle.isPrefixOf (hay.drop i))

/-- `VERB_KEYWORDS` from `agent.py`. -/
def VERB_KEYWORDS : List Str :=
  [chars "managed", chars "led", chars "developed", chars "designed",
   chars "implemented", chars "built", chars "created", chars "improved",
   chars "optimized", chars "automated", chars "reduced", chars "increased",
   chars "delivered"]

/-- `any(v in llow for v in VERB_KEYWORDS)`. -/
def hasVerb (llow : Str) : Bool := VERB_KEYWORDS.any (fun v => containsSub v llow)

/-- The separator class `[:\- ]` of the resume header regexes. -/
def isHdrSep (c : Char) : Bool := c == ':' || c == '-' || c == ' '

/-- `re.match(r'^(w)[:\- ]', llow)` for a single alternative `w`:
the line starts with `w` followed by a separator character. -/
def hdrMatch (w : Str) (l : Str) : Bool :=
  w.isPrefixOf l &&
    (match l.drop w.length with
     | c :: _ => isHdrSep c
     | [] => false)

/-- A line opens the skills section of a resume. -/
def isSkillsHeader (llow : Str) : Bool :=
  hdrMatch (chars "skills") llow || hdrMatch (chars "technical skills") llow ||
    hdrMatch (chars "skillset") llow || llow == chars "skills"

/-- A line opens the experience section of a resume. -/
def isExperienceHeader (llow : Str) : Bool :=
  hdrMatch (chars "experience") llow || hdrMatch (chars "work experience") llow ||
    hdrMatch (chars "professional experience") llow || llow == chars "experience"

/-- A line opens the summary section of a resume. -/
def isSummaryHeader (llow : Str) : Bool :=
  hdrMatch (chars "summary") llow || hdrMatch (chars "profile") llow ||
    hdrMatch (chars "professional summary") llow || llow == chars "summary"

/-- The skill delimiters `[;,|]`. -/
def isSkillDelim (c : Char) : Bool := c == ';' || c == ',' || c == '|'

/-- Split a skills line on `;`/`,`/`|`, strip each piece, keep the non-empty
ones (the body of the skills branch of `parse_resume` / `parse_jd`). -/
def extractSkillTokens (line : Str) : List Str :=
  ((splitOnPred isSkillDelim line).map pyStrip).filter (fun v => !v.isEmpty)

/-- `line.startswith(('-', '•', '*'))`. -/
def isBulletStart (line : Str) : Bool :=
  match line with
  | c :: _ => c == '-' || c == '•' || c == '*'
  | [] => false

/-- `line.lstrip('-•* ').strip()`. -/
def stripBulletMarks (line : Str) : Str :=
  pyStrip (line.dropWhile (fun c => c == '-' || c == '•' || c == '*' || c == ' '))

/-- Python `sep.join(pieces)`. -/
def joinWith (sep : Str) : List Str → Str
  | [] => []
  | [s] => s
  | s :: t :: rest => s ++ sep ++ joinWith sep (t :: rest)

/-- The section state of the `parse_resume` loop. -/
inductive RSection where
  | skills
  | experience
  | summary
deriving DecidableEq

/-- Result of `parse_resume`. -/
structure ParsedResume where
  summary : Str
  skills : List Str
  experience : List Str
deriving DecidableEq

/-- The loop of `parse_resume`, with the accumulated summary lines, skills
and experience passed along; Python appends at the end of each list. -/
def parseResumeGo (sect : Option RSection) (summaryLines skills experience : List Str) :
    List Str → ParsedResume
  | [] => ⟨pyStrip (joinWith (chars " ") summaryLines), skills, experience⟩
  | line :: rest =>
    let llow := toLowerStr line
    if isSkillsHeader llow then
      parseResumeGo (some .skills) summaryLines skills experience rest
    else if isExperienceHeader llow then
      parseResumeGo (some .experience) summaryLines skills experience rest
    else if isSummaryHeader llow then
      parseResumeGo (some .summary) summaryLines skills experience rest
    else if sect = some .skills then
      parseResumeGo sect summaryLines (skills ++ extractSkillTokens line) experience rest
    else if sect = some .experience then
      parseResumeGo sect summaryLines skills (experience ++ [line]) rest
    else if isBulletStart line || hasVerb llow then
      parseResumeGo sect summaryLines skills (experience ++ [stripBulletMarks line]) rest
    else if summaryLines.length < 3 && decide ((splitWords line).length < 40) then
      parseResumeGo sect (summaryLines ++ [line]) skills experience rest
    else
      parseResumeGo sect summaryLines skills experience rest

/-- `parse_resume` from `agent.py`. -/
def parse_resume (text : Str) : ParsedResume :=
  parseResumeGo none [] [] [] (pyLines text)

/-- Result of `parse_jd`. -/
structure ParsedJD where
  title : Str
  skills : List Str
  responsibilities : List Str
deriving DecidableEq

/-- The section state of the `parse_jd` loop. -/
inductive JSection where
  | skills
  | responsibilities
deriving DecidableEq

/-- `'skills' in llow or 'requirements' in llow or 'technologies' in llow`. -/
def isJdSkillsHeader (llow : Str) : Bool :=
  containsSub (chars "skills") llow || containsSub (chars "requirements") llow ||
    containsSub (chars "technologies") llow

/-- `'responsibil' in llow or 'what you will' in llow`. -/
def isJdRespHeader (llow : Str) : Bool :=
  containsSub (chars "responsibil") llow || containsSub (chars "what you will") llow

/-- The inline-skill heuristic of `parse_jd`: a comma-containing line shorter
than 120 characters whose comma-split yields more than one non-empty
stripped piece contributes those pieces. -/
def inlineSkillParts (line : Str) : List Str :=
  ((splitOnPred (fun c => c == ',') line).map pyStrip).filter (fun p => !p.isEmpty)

/-- The loop of `parse_jd` over the lines after the title. -/
def parseJdLoop (title : Str) (sect : Option JSection) (skills responsibilities : List Str) :
    List Str → ParsedJD
  | [] => ⟨title, skills, responsibilities⟩
  | line :: rest =>
    let llow := toLowerStr line
    if isJdSkillsHeader llow then
      parseJdLoop title (some .skills) skills responsibilities rest
    else if isJdRespHeader llow then
      parseJdLoop title (some .responsibilities) skills responsibilities rest
    else if sect = some .skills then
      parseJdLoop title sect (skills ++ extractSkillTokens line) responsibilities rest
    else if sect = some .responsibilities then
      parseJdLoop title sect skills (responsibilities ++ [line]) rest
    else if line.contains ',' && decide (line.length < 120) then
      let parts := inlineSkillParts line
      if parts.length > 1 then
        parseJdLoop title sect (skills ++ parts) responsibilities rest
      else
        parseJdLoop title sect skills responsibilities rest
    else
      parseJdLoop title sect skills responsibilities rest

/-- `parse_jd` from `agent.py`: the first line is the title, the remaining
lines are classified by the loop. -/
def parse_jd (text : Str) : ParsedJD :=
  match pyLines text with
  | [] => ⟨[], [], []⟩
  | title :: rest => parseJdLoop title none [] [] rest

/-- Boolean lexicographic order on strings by code point, the order used by
Python `<=` on `str` (and hence by `sorted`). -/
def lexLe : Str → Str → Bool
  | [], _ => true
  | _ :: _, [] => false
  | a :: as, b :: bs => if a < b then true else if a = b then lexLe as bs else false

/-- The relation form of `lexLe`, used with `List.insertionSort`. -/
def StrLe (a b : Str) : Prop := lexLe a b = true

instance : DecidableRel StrLe := fun a b => decEq (lexLe a b) true

/-- The case-insensitive skill set: lower-case every token and de-duplicate,
keeping the first occurrence (the model of `{s.lower() for s in skills}`;
only its cardinality, membership and sorted image are ever used, so any
duplicate-free enumeration represents the Python set faithfully). -/
def lowerSet (xs : List Str) : List Str := (xs.map toLowerStr).dedup

/-- Round a rational to the nearest integer, ties to even — the behaviour of
Python `round` (the inputs arising here are exactly representable enough
that binary floating point introduces no further deviation). -/
def roundHalfEven (q : ℚ) : ℤ :=
  let f := ⌊q⌋
  let r := q - f
  if r < 1 / 2 then f else if 1 / 2 < r then f + 1 else if Even f then f else f + 1

/-- Python `round(x, 1)`. -/
def round1 (q : ℚ) : ℚ := (roundHalfEven (10 * q) : ℚ) / 10

/-- `match_and_score` from `agent.py`: returns the rounded percentage score
and the sorted missing-skill list. -/
def match_and_score (resume : ParsedResume) (jd : ParsedJD) : ℚ × List Str :=
  let resume_skills := lowerSet resume.skills
  let jd_skills := lowerSet jd.skills
  if jd_skills.isEmpty then (0, [])
  else
    let matched := resume_skills.filter (fun s => decide (s ∈ jd_skills))
    let missing := List.insertionSort StrLe (jd_skills.filter (fun s => decide (s ∉ resume_skills)))
    let score : ℚ := 100 * (matched.length : ℚ) / (jd_skills.length : ℚ)
    (round1 score, missing)

/-- Result of `suggest_resume_updates`. -/
structure Suggestions where
  suggested_summary : Str
  add_skills : List Str
  rewritten_experience : List Str
deriving DecidableEq

/-- The fixed coaching suffix appended to bullets without a numeric token. -/
def METRIC_SUFFIX : Str :=
  chars " (include quantifiable impact, e.g., reduced X by Y% or improved throughput by N)"

/-- `re.findall(r"\d+[\.,]?\d*%?|\d+", b)` is non-empty exactly when `b`
contains a decimal digit: both alternatives of the pattern require a
leading digit, and any digit starts a match of the `\d+` alternative.
The source only tests the match list for emptiness. -/
def hasNumericToken (b : Str) : Bool := b.any (fun c => c.isDigit)

/-- The per-bullet body of the rewrite loop of `suggest_resume_updates`. -/
def rewriteBullet (b : Str) : Str :=
  if hasNumericToken b then
    (if b.length < 240 then b else b.take 240 ++ chars "...")
  else b ++ METRIC_SUFFIX

/-- `suggest_resume_updates` from `agent.py` (the Python default for
`max_suggestions` is 6; here it is always passed explicitly). -/
def suggest_resume_updates (resume : ParsedResume) (jd : ParsedJD)
    (max_suggestions : Nat) : Suggestions :=
  let title := jd.title
  let summary0 := resume.summary
  let suggested_summary :=
    if !title.isEmpty then
      (if !summary0.isEmpty then title ++ chars " - " ++ summary0
       else title ++ chars " candidate with relevant experience.")
    else summary0
  let missing := (match_and_score resume jd).2
  let add_skills := missing.take 10
  let rewritten := (resume.experience.take max_suggestions).map rewriteBullet
  ⟨suggested_summary, add_skills, rewritten⟩

/-- One coaching question/tip pair. -/
structure CoachingQuestion where
  question : Str
  tip : Str
deriving DecidableEq

/-- The fixed generic padding entry of `generate_coaching_questions`. -/
def GENERIC_QUESTION : CoachingQuestion :=
  ⟨chars "Describe a technical challenge you solved recently.",
   chars "Explain trade-offs, your approach, and measurable outcome."⟩

/-- The skill-based question template. -/
def mkSkillQuestion (s : Str) : CoachingQuestion :=
  ⟨chars "Can you describe your experience with " ++ s ++ chars "?",
   chars "Mention specific projects, your role, technologies used, and outcomes or metrics."⟩

/-- The responsibility-based question template (`r.strip('.').lower()`). -/
def mkRespQuestion (r : Str) : CoachingQuestion :=
  ⟨chars "Tell me about a time you " ++ toLowerStr (stripWith (fun c => c == '.') r),
   chars "Use STAR (Situation, Task, Action, Result) and quantify results when possible."⟩

/-- Python slice `xs[:n]` for an arbitrary (possibly negative) integer `n`. -/
def pySlice (n : ℤ) (xs : List α) : List α :=
  if 0 ≤ n then xs.take n.toNat else xs.take ((xs.length : ℤ) + n).toNat

/-- The skill- and responsibility-based part of `generate_coaching_questions`
(the two `for` loops, before the `while` padding loop). -/
def coachingCore (jd : ParsedJD) (n : ℤ) : List CoachingQuestion :=
  let q1 := (if jd.skills.isEmpty then [] else pySlice n jd.skills).map mkSkillQuestion
  let q2 := (pySlice (max 0 (n - (q1.length : ℤ))) jd.responsibilities).map mkRespQuestion
  q1 ++ q2

/-- `generate_coaching_questions` from `agent.py`; the count `n` is an
integer to capture Python slice semantics at negative counts (the Python
default is 8; here it is always passed explicitly). -/
def generate_coaching_questions (jd : ParsedJD) (n : ℤ) : List CoachingQuestion :=
  let qs := coachingCore jd n
  qs ++ List.replicate (n - (qs.length : ℤ)).toNat GENERIC_QUESTION

/-- The bullet test of the tailoring loop:
`line.startswith('-') or any(v in line.lower() for v in VERB_KEYWORDS)`.
(Unlike `parse_resume`, only `-` counts as a bullet marker here.) -/
def isTailorBullet (line : Str) : Bool :=
  (match line with
   | c :: _ => c == '-'
   | [] => false) || hasVerb (toLowerStr line)

/-- The substitution walk of `tailor_resume_text`: produces the emitted
lines together with the final value of the `replaced` counter. -/
def tailorLoop (rw : List Str) : List Str → Nat → List Str × Nat
  | [], replaced => ([], replaced)
  | line :: rest, replaced =>
    if replaced < rw.length && isTailorBullet line then
      let p := tailorLoop rw rest (replaced + 1)
      ((chars "- " ++ rw.getD replaced []) :: p.1, p.2)
    else
      let p := tailorLoop rw rest replaced
      (line :: p.1, p.2)

/-- The heading introducing leftover rewritten bullets. -/
def EXPERIENCE_HEADING : Str := chars "Experience (suggested improvements):"

/-- The list `out` built by `tailor_resume_text`, before joining with
newlines. -/
def tailorOut (original_text : Str) (s : Suggestions) : List Str :=
  let lines := pyLines original_text
  let summaryBlock :=
    if !s.suggested_summary.isEmpty then [s.suggested_summary, []] else []
  let skillsBlock :=
    if !s.add_skills.isEmpty then
      [chars "Skills:", joinWith (chars ", ") s.add_skills, []]
    else []
  let walk := tailorLoop s.rewritten_experience lines 0
  let leftover :=
    if walk.2 < s.rewritten_experience.length then
      [[], EXPERIENCE_HEADING] ++
        (s.rewritten_experience.drop walk.2).map (fun e => chars "- " ++ e)
    else []
  summaryBlock ++ skillsBlock ++ walk.1 ++ leftover

/-- `tailor_resume_text` from `agent.py`: `'\n'.join(out)`. -/
def tailor_resume_text (original_text : Str) (s : Suggestions) : Str :=
  joinWith ['\n'] (tailorOut original_text s)

/-- JSON values, as produced by `r.json()` in `llm.py`. -/
inductive Json where
  | null
  | bool (b : Bool)
  | num (n : ℤ)
  | str (s : Str)
  | arr (elems : List Json)
  | obj (fields : List (Str × Json))

/-- Dictionary lookup, `d.get(k)` / `d[k]` on a parsed JSON object. -/
def jsonGet (fields : List (Str × Json)) (k : Str) : Option Json :=
  (fields.find? (fun p => decide (p.1 = k))).map (fun p => p.2)

/-- Python truthiness of a JSON value (used by the `or` in
`cand['message'].get('content') or cand['message'].get('text')`). -/
def jsonTruthy : Json → Bool
  | .null => false
  | .bool b => b
  | .num n => decide (n ≠ 0)
  | .str s => !s.isEmpty
  | .arr xs => !xs.isEmpty
  | .obj fs => !fs.isEmpty

/-- Escape one character for `json.dumps` (the cases that arise for the
ASCII text handled here; `json.dumps` additionally escapes non-ASCII
code points, which never occur in the modelled responses). -/
def jsonEscapeChar (c : Char) : Str :=
  if c = '"' then ['\\', '"']
  else if c = '\\' then ['\\', '\\']
  else if c = '\n' then ['\\', 'n']
  else if c = '\t' then ['\\', 't']
  else if c = '\r' then ['\\', 'r']
  else [c]

/-- The rendering of a string by `json.dumps`. -/
def jsonDumpsStr (s : Str) : Str := '"' :: (s.flatMap jsonEscapeChar ++ ['"'])

mutual

/-- Serialise a JSON value the way `json.dumps` renders it with default
separators. -/
def jsonDumps : Json → Str
  | .null => chars "null"
  | .bool true => chars "true"
  | .bool false => chars "false"
  | .num n => chars (toString n)
  | .str s => jsonDumpsStr s
  | .arr xs => '[' :: (jsonDumpsElems xs ++ [']'])
  | .obj fs => '{' :: (jsonDumpsFields fs ++ ['\x7d'])

/-- The comma-separated members of an array under `json.dumps`. -/
def jsonDumpsElems : List Json → Str
  | [] => []
  | [x] => jsonDumps x
  | x :: y :: xs => jsonDumps x ++ (chars ", " ++ jsonDumpsElems (y :: xs))

/-- The comma-separated `key: value` members of an object under `json.dumps`. -/
def jsonDumpsFields : List (Str × Json) → Str
  | [] => []
  | [f] => jsonDumpsStr f.1 ++ (chars ": " ++ jsonDumps f.2)
  | f :: g :: fs =>
    jsonDumpsStr f.1 ++ (chars ": " ++ jsonDumps f.2) ++
      (chars ", " ++ jsonDumpsFields (g :: fs))

end

/-- `_extract_text_from_response` applied to the first candidate when it is
a JSON object: try the keys `content`, `output`, `text` in order, then
`message.content or message.text` when that is a string; `none` means
fall through to the top-level checks. -/
def extractFromCandidate (cand : List (Str × Json)) : Option Json :=
  match jsonGet cand (chars "content") with
  | some v => some v
  | none =>
    match jsonGet cand (chars "output") with
    | some v => some v
    | none =>
      match jsonGet cand (chars "text") with
      | some v => some v
      | none =>
        match jsonGet cand (chars "message") with
        | some (.obj m) =>
          let cont :=
            match jsonGet m (chars "content") with
            | some c => if jsonTruthy c then c else (jsonGet m (chars "text")).getD Json.null
            | none => (jsonGet m (chars "text")).getD Json.null
          match cont with
          | .str s => some (.str s)
          | _ => none
        | _ => none

/-- `_extract_text_from_response` from `llm.py`.  A non-dict value yields the
empty string; a dict is probed for `candidates`, then a top-level string
`output`, then serialised with `json.dumps` as a last resort.  (A first
candidate that is not itself a dict would make the Python `k in cand` test
operate on a non-dict value; such responses are outside the modelled
shapes and take the fall-through path here.) -/
def extract_text_from_response (j : Json) : Json :=
  match j with
  | .obj fields =>
    let fromCand :=
      match jsonGet fields (chars "candidates") with
      | some (.arr (cand :: _)) =>
        (match cand with
         | .obj cf => extractFromCandidate cf
         | _ => none)
      | _ => none
    (match fromCand with
     | some v => v
     | none =>
       match jsonGet fields (chars "output") with
       | some (.str s) => .str s
       | _ => .str (jsonDumps j))
  | _ => Json.str []

/-- The observable outcome of the single `requests.post` call in
`call_gemini_flash`: either the request raised, or a response arrived
with a status code, a body text, and — when the body parses as JSON —
its parsed value (`r.json()`). -/
inductive HttpOutcome where
  | transportError (msg : Str)
  | response (status : ℕ) (text : Str) (parsed : Option Json)

/-- The failure marker sniffed by the caller
(`llm_out.startswith('LLM request failed')` in `cli.py`). -/
def FAILURE_MARKER : Str := chars "LLM request failed"

/-- The response handling of `call_gemini_flash` from `llm.py`, as a
function of the HTTP outcome (the credential check and request assembly
precede the call and do not affect the returned value).  Python returns
whatever value the branches produce; only the failure branches are
guaranteed to be strings, so the result is modelled as a JSON value with
strings embedded via `Json.str`. -/
def call_gemini_flash (outcome : HttpOutcome) : Json :=
  match outcome with
  | .transportError e => .str (chars "LLM request failed: " ++ e)
  | .response status text parsed =>
    if status ≠ 200 then
      .str (chars "LLM request failed: " ++ chars (toString status) ++ chars " " ++ text)
    else
      match parsed with
      | none => .str text
      | some j => extract_text_from_response j

/-- The marker-sniffing test used by the caller on the wrapper's result. -/
def startsWithFailureMarker (j : Json) : Bool :=
  match j with
  | .str s => FAILURE_MARKER.isPrefixOf s
  | _ => false

/-! ## Helper lemmas about splitting and stripping -/

theorem splitOnPred_ne_nil (p : Char → Bool) (s : Str) : splitOnPred p s ≠ [] := by
  cases s with
  | nil => simp [splitOnPred]
  | cons c cs =>
    simp only [splitOnPred]
    split <;> simp

theorem headI_cons_tail_of_ne_nil {l : List Str} (h : l ≠ []) : l.headI :: l.tail = l := by
  cases l with
  | nil => exact absurd rfl h
  | cons a t => rfl

theorem splitOnPred_append_no (p : Char → Bool) (a b : Str)
    (ha : ∀ c ∈ a, p c = false) :
    splitOnPred p (a ++ b) =
      (a ++ (splitOnPred p b).headI) :: (splitOnPred p b).tail := by
  induction a with
  | nil => simpa using (headI_cons_tail_of_ne_nil (splitOnPred_ne_nil p b)).symm
  | cons c cs ih =>
    have hc : p c = false := ha c (by simp)
    have hcs : ∀ x ∈ cs, p x = false := fun x hx => ha x (by simp [hx])
    simp [splitOnPred, hc, ih hcs]

theorem splitOnPred_no (p : Char → Bool) (a : Str) (ha : ∀ c ∈ a, p c = false) :
    splitOnPred p a = [a] := by
  have h := splitOnPred_append_no p a [] ha
  simpa [splitOnPred] using h

theorem splitOnPred_append_delim (p : Char → Bool) (a : Str) (c : Char) (b : Str)
    (ha : ∀ x ∈ a, p x = false) (hc : p c = true) :
    splitOnPred p (a ++ c :: b) = a :: splitOnPred p b := by
  rw [splitOnPred_append_no p a (c :: b) ha]
  simp [splitOnPred, hc]

theorem dropWhile_cons_of_neg (p : Char → Bool) (c : Char) (t : Str) (hc : p c = false) :
    (c :: t).dropWhile p = c :: t := by
  simp [List.dropWhile_cons, hc]

theorem head_neg_of_dropWhile_fixed (p : Char → Bool) (c : Char) (t : Str)
    (h : (c :: t).dropWhile p = c :: t) : p c = false := by
  by_contra hc
  rw [Bool.not_eq_false] at hc
  rw [List.dropWhile_cons, if_pos hc] at h
  have hlen := congrArg List.length h
  have hle := ((List.dropWhile_suffix (l := t) p).sublist).length_le
  simp at hlen
  omega

theorem pyStrip_eq_self_of (s : Str) (h1 : s.dropWhile isPySpace = s)
    (h2 : s.reverse.dropWhile isPySpace = s.reverse) : pyStrip s = s := by
  rw [pyStrip, stripWith, h1, h2, List.reverse_reverse]

theorem pyStrip_eq_self_front {s : Str} (h : pyStrip s = s) :
    s.dropWhile isPySpace = s := by
  have h1 : (s.dropWhile isPySpace).Sublist s := (List.dropWhile_suffix _).sublist
  have h2 : (pyStrip s).Sublist (s.dropWhile isPySpace) := by
    rw [pyStrip, stripWith]
    have h3 := (List.dropWhile_suffix (l := (s.dropWhile isPySpace).reverse) isPySpace).sublist
    have h4 := h3.reverse
    simpa using h4
  rw [h] at h2
  have hlen : (s.dropWhile isPySpace).length = s.length :=
    le_antisymm (h1.length_le) (h2.length_le)
  exact h1.eq_of_length hlen

theorem pyStrip_eq_self_back {s : Str} (h : pyStrip s = s) :
    s.reverse.dropWhile isPySpace = s.reverse := by
  have hf := pyStrip_eq_self_front h
  rw [pyStrip, stripWith, hf] at h
  have h2 := congrArg List.reverse h
  simpa using h2

theorem dropWhile_append_all (p : Char → Bool) (pre s : Str)
    (h : ∀ c ∈ pre, p c = true) : (pre ++ s).dropWhile p = s.dropWhile p := by
  induction pre with
  | nil => simp
  | cons c cs ih =>
    have hc : p c = true := h c (by simp)
    have hcs : ∀ x ∈ cs, p x = true := fun x hx => h x (by simp [hx])
    simp [List.dropWhile_cons, hc, ih hcs]

theorem pyStrip_space_append (pre s : Str) (h : ∀ c ∈ pre, isPySpace c = true) :
    pyStrip (pre ++ s) = pyStrip s := by
  rw [pyStrip, pyStrip, stripWith, stripWith, dropWhile_append_all _ _ _ h]

theorem pyStrip_all_space (pre : Str) (h : ∀ c ∈ pre, isPySpace c = true) :
    pyStrip pre = [] := by
  have := pyStrip_space_append pre [] h
  simpa [pyStrip, stripWith] using this

/-! ## Lemmas about comma-joined skill lines -/

theorem mem_joinWith (sep : Str) (l : List Str) (c : Char) (h : c ∈ joinWith sep l) :
    (∃ s ∈ l, c ∈ s) ∨ c ∈ sep := by
  induction l with
  | nil => simp [joinWith] at h
  | cons s rest ih =>
    cases rest with
    | nil =>
      rw [joinWith] at h
      exact Or.inl ⟨s, by simp, h⟩
    | cons t rs =>
      rw [joinWith] at h
      rcases List.mem_append.1 h with h1 | h1
      · rcases List.mem_append.1 h1 with h2 | h2
        · exact Or.inl ⟨s, by simp, h2⟩
        · exact Or.inr h2
      · rcases ih h1 with ⟨u, hu, hcu⟩ | h2
        · exact Or.inl ⟨u, by simp [hu], hcu⟩
        · exact Or.inr h2

theorem joinWith_head_decomp (sep : Str) (s : Str) (l : List Str) :
    ∃ z, joinWith sep (s :: l) = s ++ z := by
  cases l with
  | nil => exact ⟨[], by simp [joinWith]⟩
  | cons t rs => exact ⟨sep ++ joinWith sep (t :: rs), by simp [joinWith]⟩

theorem joinWith_last_decomp (sep : Str) (l : List Str) (h : l ≠ []) :
    ∃ z, (joinWith sep l).reverse = (l.getLast h).reverse ++ z := by
  induction l with
  | nil => exact absurd rfl h
  | cons s rest ih =>
    cases rest with
    | nil => exact ⟨[], by simp [joinWith]⟩
    | cons t rs =>
      obtain ⟨z, hz⟩ := ih (by simp)
      refine ⟨z ++ (sep.reverse ++ s.reverse), ?_⟩
      rw [joinWith, List.getLast_cons (by simp)]
      simp only [List.reverse_append, hz]
      simp

theorem pyStrip_joinWith (skills : List Str) (hne : skills ≠ [])
    (h1 : ∀ s ∈ skills, s ≠ []) (h2 : ∀ s ∈ skills, pyStrip s = s) :
    pyStrip (joinWith (chars ", ") skills) = joinWith (chars ", ") skills := by
  obtain ⟨s, rest, rfl⟩ := List.exists_cons_of_ne_nil hne
  apply pyStrip_eq_self_of
  · obtain ⟨z, hz⟩ := joinWith_head_decomp (chars ", ") s rest
    obtain ⟨c, t, rfl⟩ := List.exists_cons_of_ne_nil (h1 s (by simp))
    have hc : isPySpace c = false := by
      apply head_neg_of_dropWhile_fixed isPySpace c t
      exact pyStrip_eq_self_front (h2 (c :: t) (by simp))
    rw [hz, List.cons_append]
    exact dropWhile_cons_of_neg _ _ _ hc
  · obtain ⟨z, hz⟩ := joinWith_last_decomp (chars ", ") (s :: rest) (by simp)
    have hlast := List.getLast_mem (l := s :: rest) (by simp)
    have hlast_ne : (s :: rest).getLast (by simp) ≠ [] := h1 _ hlast
    have hback := pyStrip_eq_self_back (h2 _ hlast)
    have hrevne : ((s :: rest).getLast (by simp)).reverse ≠ [] := by
      simpa [List.reverse_eq_nil_iff] using hlast_ne
    obtain ⟨c, t, hct⟩ := List.exists_cons_of_ne_nil hrevne
    have hc : isPySpace c = false := by
      apply head_neg_of_dropWhile_fixed isPySpace c t
      rw [← hct]; exact hback
    rw [hz, hct, List.cons_append]
    exact dropWhile_cons_of_neg _ _ _ hc

theorem chars_comma_space : chars ", " = [',', ' '] := by decide

theorem extractSkillTokens_join (skills : List Str) :
    ∀ pre : Str,
      (∀ c ∈ pre, isSkillDelim c = false) →
      (∀ c ∈ pre, isPySpace c = true) →
      (∀ s ∈ skills, s ≠ []) →
      (∀ s ∈ skills, pyStrip s = s) →
      (∀ s ∈ skills, ∀ c ∈ s, isSkillDelim c = false) →
      extractSkillTokens (pre ++ joinWith (chars ", ") skills) = skills := by
  induction skills with
  | nil =>
    intro pre hpre1 hpre2 _ _ _
    rw [joinWith, List.append_nil, extractSkillTokens, splitOnPred_no _ _ hpre1]
    simp [pyStrip_all_space pre hpre2]
  | cons s rest ih =>
    intro pre hpre1 hpre2 h1 h2 h3
    have hnod : ∀ c ∈ pre ++ s, isSkillDelim c = false := by
      intro c hc
      rcases List.mem_append.1 hc with h | h
      · exact hpre1 c h
      · exact h3 s (by simp) c h
    have hstrip : pyStrip (pre ++ s) = s := by
      rw [pyStrip_space_append _ _ hpre2, h2 s (by simp)]
    have hne : s.isEmpty = false := by
      simpa [List.isEmpty_iff] using h1 s (by simp)
    cases rest with
    | nil =>
      rw [joinWith, extractSkillTokens, splitOnPred_no _ _ hnod]
      simp [hstrip, hne]
    | cons t rs =>
      have hassoc :
          pre ++ joinWith (chars ", ") (s :: t :: rs) =
            (pre ++ s) ++ ',' :: (' ' :: joinWith (chars ", ") (t :: rs)) := by
        rw [joinWith, chars_comma_space]
        simp
      rw [hassoc, extractSkillTokens,
        splitOnPred_append_delim _ _ _ _ hnod (by decide)]
      have htail := ih [' '] (by decide) (by decide)
        (fun x hx => h1 x (by simp [hx]))
        (fun x hx => h2 x (by simp [hx]))
        (fun x hx => h3 x (by simp [hx]))
      rw [extractSkillTokens] at htail
      simp only [List.singleton_append] at htail
      simp [hstrip, hne, htail]

theorem parseResumeGo_nil (sect : Option RSection) (a b c : List Str) :
    parseResumeGo sect a b c [] = ⟨pyStrip (joinWith (chars " ") a), b, c⟩ := rfl

theorem parseResumeGo_cons_skills_header (sect : Option RSection) (a b c : List Str)
    (line : Str) (rest : List Str) (h : isSkillsHeader (toLowerStr line) = true) :
    parseResumeGo sect a b c (line :: rest) = parseResumeGo (some .skills) a b c rest := by
  simp only [parseResumeGo, h, if_true]

theorem parseResumeGo_cons_skills_body (a b c : List Str) (line : Str) (rest : List Str)
    (hh1 : isSkillsHeader (toLowerStr line) = false)
    (hh2 : isExperienceHeader (toLowerStr line) = false)
    (hh3 : isSummaryHeader (toLowerStr line) = false) :
    parseResumeGo (some .skills) a b c (line :: rest) =
      parseResumeGo (some .skills) a (b ++ extractSkillTokens line) c rest := by
  simp only [parseResumeGo, hh1, hh2, hh3, Bool.false_eq_true, if_false]
  simp

theorem isLineBreak_isPySpace (c : Char) (h : isLineBreak c = true) :
    isPySpace c = true ∧ c ≠ ' ' := by
  rw [isLineBreak] at h
  simp only [Bool.or_eq_true, beq_iff_eq] at h
  rcases h with h | h <;> subst h <;> exact ⟨by decide, by decide⟩

theorem joinWith_no_linebreak (skills : List Str)
    (h4 : ∀ s ∈ skills, ∀ c ∈ s, isPySpace c = true → c = ' ') :
    ∀ c ∈ joinWith (chars ", ") skills, isLineBreak c = false := by
  intro c hc
  rcases mem_joinWith _ _ _ hc with ⟨s, hs, hcs⟩ | hsep
  · by_contra hb
    rw [Bool.not_eq_false] at hb
    obtain ⟨hsp, hne⟩ := isLineBreak_isPySpace c hb
    exact hne (h4 s hs c hcs hsp)
  · rw [chars_comma_space] at hsep
    simp only [List.mem_cons, List.not_mem_nil, or_false] at hsep
    rcases hsep with h | h <;> subst h <;> decide

theorem pyLines_skills_block (skills : List Str) (hne : skills ≠ [])
    (h1 : ∀ s ∈ skills, s ≠ [])
    (h2 : ∀ s ∈ skills, pyStrip s = s)
    (h4 : ∀ s ∈ skills, ∀ c ∈ s, isPySpace c = true → c = ' ') :
    pyLines (chars "Skills:" ++ '\n' :: joinWith (chars ", ") skills) =
      [chars "Skills:", joinWith (chars ", ") skills] := by
  have hjoin_ne : (joinWith (chars ", ") skills) ≠ [] := by
    obtain ⟨s, rest, rfl⟩ := List.exists_cons_of_ne_nil hne
    obtain ⟨z, hz⟩ := joinWith_head_decomp (chars ", ") s rest
    rw [hz]
    intro hx
    rcases List.append_eq_nil.mp hx with ⟨hs, _⟩
    exact h1 s (by simp) hs
  have hjoin_ne' : (joinWith (chars ", ") skills).isEmpty = false := by
    simpa [List.isEmpty_iff] using hjoin_ne
  have hhdr_strip : pyStrip (chars "Skills:") = chars "Skills:" := by decide
  rw [pyLines, splitOnPred_append_delim _ _ _ _ (by decide) (by decide),
    splitOnPred_no _ _ (joinWith_no_linebreak skills h4)]
  simp [hhdr_strip, pyStrip_joinWith skills hne h1 h2, hjoin_ne']
  exact ⟨by decide, hjoin_ne⟩

/-! ## Claims C1 and C2 -/

/-- C1 (counterexample): for the single-line resume text
`"Skills: Python, SQL, Docker"`, `parse_resume` does not return the skills
`["Python", "SQL", "Docker"]` — the line is consumed as a section header. -/
theorem parse_resume_header_line_counterexample :
    (parse_resume (chars "Skills: Python, SQL, Docker")).skills ≠
      [chars "Python", chars "SQL", chars "Docker"] := by decide

/-- C1 (amended): for the single-line resume text
`"Skills: Python, SQL, Docker"`, the whole line matches the skills-header
rule and is skipped, so `parse_resume` returns an empty skill list (and an
empty summary and experience list). -/
theorem parse_resume_header_line :
    parse_resume (chars "Skills: Python, SQL, Docker") =
      ⟨[], [], []⟩ := by decide

/-- C2 (counterexample): the round-trip fails for the one-element
`add_skills` list `["a;b"]` — the emitted line `"a;b"` is re-split at the
`;` delimiter, yielding the tokens `["a", "b"]`. -/
theorem skills_block_roundtrip_counterexample :
    (parse_resume (chars "Skills:" ++ '\n' ::
        joinWith (chars ", ") [chars "a;b"])).skills ≠ [chars "a;b"] := by decide

/-- C2 (amended): the tailoring renderer emits the skills block
`["Skills:", joined, ""]` with `joined` the comma-joined `add_skills` line,
and re-parsing the two-line block `"Skills:\n" ++ joined` with
`parse_resume` re-extracts exactly the inserted skill tokens, provided each
token is non-empty, strip-fixed, contains no `;`/`,`/`|` delimiter, contains
no whitespace other than plain spaces, and the joined line does not itself
match one of the resume section-header rules. -/
theorem skills_block_roundtrip (skills : List Str) (hne : skills ≠ [])
    (h1 : ∀ s ∈ skills, s ≠ [])
    (h2 : ∀ s ∈ skills, pyStrip s = s)
    (h3 : ∀ s ∈ skills, ∀ c ∈ s, isSkillDelim c = false)
    (h4 : ∀ s ∈ skills, ∀ c ∈ s, isPySpace c = true → c = ' ')
    (h5 : isSkillsHeader (toLowerStr (joinWith (chars ", ") skills)) = false)
    (h6 : isExperienceHeader (toLowerStr (joinWith (chars ", ") skills)) = false)
    (h7 : isSummaryHeader (toLowerStr (joinWith (chars ", ") skills)) = false) :
    tailorOut [] ⟨[], skills, []⟩ =
      [chars "Skills:", joinWith (chars ", ") skills, []] ∧
    (parse_resume (chars "Skills:" ++ '\n' ::
        joinWith (chars ", ") skills)).skills = skills := by
  constructor
  · have hsk : skills.isEmpty = false := by simpa [List.isEmpty_iff] using hne
    have hpl : pyLines ([] : Str) = [] := by decide
    simp [tailorOut, hpl, tailorLoop, hsk]
  · rw [parse_resume, pyLines_skills_block skills hne h1 h2 h4,
      parseResumeGo_cons_skills_header _ _ _ _ _ _ (by decide),
      parseResumeGo_cons_skills_body _ _ _ _ _ h5 h6 h7,
      parseResumeGo_nil]
    simpa using extractSkillTokens_join skills [] (by simp) (by simp) h1 h2 h3

/-- C2 (witness): the round-trip at the concrete skill list
`["python", "sql"]`. -/
theorem skills_block_roundtrip_witness :
    (parse_resume (chars "Skills:" ++ '\n' ::
        joinWith (chars ", ") [chars "python", chars "sql"])).skills =
      [chars "python", chars "sql"] :=
  (skills_block_roundtrip [chars "python", chars "sql"] (by decide) (by decide)
    (by decide) (by decide) (by decide) (by decide) (by decide) (by decide)).2

/-! ## Claims C4 and C5 -/

set_option maxRecDepth 4000 in
/-- C4 (counterexample): a bullet of exactly 240 characters containing a
numeric token is not passed through unchanged — the code truncates at
`len(b) < 240`, so a 240-character bullet gains an ellipsis. -/
theorem rewritten_numeric_bullets_counterexample :
    (suggest_resume_updates ⟨[], [], [List.replicate 240 '1']⟩ ⟨[], [], []⟩
        6).rewritten_experience ≠ [List.replicate 240 '1'] := by decide

/-- C4 (amended): every experience bullet among the first `max_suggestions`
that contains a numeric token is passed through unchanged when its length
is strictly less than 240 characters, and is truncated to 240 characters
with an appended ellipsis when its length is 240 or more. -/
theorem rewritten_numeric_bullets (resume : ParsedResume) (jd : ParsedJD) (m : ℕ) :
    List.Forall₂ (fun b r =>
        hasNumericToken b = true →
          ((b.length < 240 → r = b) ∧
           (240 ≤ b.length → r = b.take 240 ++ chars "...")))
      (resume.experience.take m)
      ((suggest_resume_updates resume jd m).rewritten_experience) := by
  have hdef : (suggest_resume_updates resume jd m).rewritten_experience =
      (resume.experience.take m).map rewriteBullet := rfl
  rw [hdef, List.forall₂_map_right_iff, List.forall₂_same]
  intro b _ hnum
  rw [rewriteBullet, if_pos hnum]
  constructor
  · intro hlt
    rw [if_pos hlt]
  · intro hge
    rw [if_neg (by omega)]

/-- C4 (witness): a short bullet with a numeric token passes through. -/
theorem rewritten_numeric_bullets_witness :
    List.Forall₂ (fun b r =>
        hasNumericToken b = true →
          ((b.length < 240 → r = b) ∧
           (240 ≤ b.length → r = b.take 240 ++ chars "...")))
      [chars "cut 10% cost"]
      ((suggest_resume_updates ⟨[], [], [chars "cut 10% cost"]⟩ ⟨[], [], []⟩
          6).rewritten_experience) :=
  rewritten_numeric_bullets ⟨[], [], [chars "cut 10% cost"]⟩ ⟨[], [], []⟩ 6

/-- C5 (counterexample): a 200 response whose body fails to parse as JSON is
returned verbatim by `call_gemini_flash` and does not begin with the
failure marker. -/
theorem llm_failure_marker_counterexample :
    call_gemini_flash (.response 200 (chars "not json") none) =
        .str (chars "not json") ∧
    startsWithFailureMarker
        (call_gemini_flash (.response 200 (chars "not json") none)) = false :=
  ⟨rfl, by decide⟩

theorem failure_marker_prefix (rest : Str) :
    FAILURE_MARKER.isPrefixOf (chars "LLM request failed: " ++ rest) = true := by
  rw [List.isPrefixOf_iff_prefix]
  have h : chars "LLM request failed: " = FAILURE_MARKER ++ chars ": " := by decide
  rw [h, List.append_assoc]
  exact List.prefix_append _ _

/-- C5 (amended): on a transport failure or a non-200 HTTP status,
`call_gemini_flash` returns a string beginning with the fixed failure
marker `"LLM request failed"` that the caller sniffs; on a 200 response
whose body fails to parse as JSON, the raw body text is returned instead,
without the marker. -/
theorem llm_failure_marker :
    (∀ e, startsWithFailureMarker (call_gemini_flash (.transportError e)) = true) ∧
    (∀ (status : ℕ) (text : Str) (parsed : Option Json), status ≠ 200 →
      startsWithFailureMarker (call_gemini_flash (.response status text parsed)) = true) ∧
    (∀ text, call_gemini_flash (.response 200 text none) = .str text) := by
  refine ⟨?_, ?_, fun _ => rfl⟩
  · intro e
    have h : call_gemini_flash (.transportError e) =
        .str (chars "LLM request failed: " ++ e) := rfl
    rw [h, startsWithFailureMarker]
    exact failure_marker_prefix e
  · intro status text parsed hstatus
    have h : call_gemini_flash (.response status text parsed) =
        .str (chars "LLM request failed: " ++ chars (toString status) ++
          chars " " ++ text) := by
      simp only [call_gemini_flash]
      rw [if_pos hstatus]
    rw [h, startsWithFailureMarker, List.append_assoc, List.append_assoc]
    exact failure_marker_prefix _

/-- C5 (witness): the marker appears on a concrete 500 response. -/
theorem llm_failure_marker_witness :
    startsWithFailureMarker
      (call_gemini_flash (.response 500 (chars "server error") none)) = true :=
  llm_failure_marker.2.1 500 (chars "server error") none (by decide)

/-! ## Lemmas about the tailoring walk -/

theorem tailorLoop_cons_pos (rw : List Str) (l : Str) (ls : List Str) (rep : ℕ)
    (h1 : rep < rw.length) (h2 : isTailorBullet l = true) :
    tailorLoop rw (l :: ls) rep =
      ((chars "- " ++ rw.getD rep []) :: (tailorLoop rw ls (rep + 1)).1,
       (tailorLoop rw ls (rep + 1)).2) := by
  simp only [tailorLoop]
  rw [if_pos (by simp [h1, h2])]

theorem tailorLoop_cons_neg (rw : List Str) (l : Str) (ls : List Str) (rep : ℕ)
    (h : ¬(rep < rw.length ∧ isTailorBullet l = true)) :
    tailorLoop rw (l :: ls) rep =
      (l :: (tailorLoop rw ls rep).1, (tailorLoop rw ls rep).2) := by
  simp only [tailorLoop]
  rw [if_neg (by simpa using h)]

theorem tailorLoop_fst_length (rw : List Str) (lines : List Str) :
    ∀ rep : ℕ, (tailorLoop rw lines rep).1.length = lines.length := by
  induction lines with
  | nil => intro rep; rfl
  | cons l ls ih =>
    intro rep
    by_cases hc : rep < rw.length ∧ isTailorBullet l = true
    · rw [tailorLoop_cons_pos rw l ls rep hc.1 hc.2]
      simp [ih]
    · rw [tailorLoop_cons_neg rw l ls rep hc]
      simp [ih]

theorem tailorLoop_snd (rw : List Str) (lines : List Str) :
    ∀ rep : ℕ, (tailorLoop rw lines rep).2 =
      max rep (min (rep + lines.countP isTailorBullet) rw.length) := by
  induction lines with
  | nil =>
    intro rep
    simp only [tailorLoop, List.countP_nil]
    omega
  | cons l ls ih =>
    intro rep
    by_cases hb : isTailorBullet l = true
    · rw [List.countP_cons_of_pos _ _ hb]
      by_cases h1 : rep < rw.length
      · rw [tailorLoop_cons_pos rw l ls rep h1 hb]
        simp only [ih (rep + 1)]
        omega
      · rw [tailorLoop_cons_neg rw l ls rep (by tauto)]
        simp only [ih rep]
        omega
    · rw [List.countP_cons_of_neg _ _ hb, tailorLoop_cons_neg rw l ls rep (by tauto)]
      exact ih rep

theorem tailorLoop_getD (rw : List Str) (lines : List Str) :
    ∀ (rep i : ℕ), i < lines.length →
      (tailorLoop rw lines rep).1.getD i [] =
        (if isTailorBullet (lines.getD i []) = true ∧
            rep + (lines.take i).countP isTailorBullet < rw.length
         then chars "- " ++ rw.getD (rep + (lines.take i).countP isTailorBullet) []
         else lines.getD i []) := by
  induction lines with
  | nil => intro rep i hi; simp at hi
  | cons l ls ih =>
    intro rep i hi
    match i with
    | 0 =>
      simp only [List.getD_cons_zero, List.take_zero, List.countP_nil, Nat.add_zero]
      by_cases hc : rep < rw.length ∧ isTailorBullet l = true
      · rw [tailorLoop_cons_pos rw l ls rep hc.1 hc.2]
        simp [hc.1, hc.2]
      · rw [tailorLoop_cons_neg rw l ls rep hc]
        rw [if_neg (by tauto)]
        simp
    | j + 1 =>
      have hj : j < ls.length := by simpa using hi
      simp only [List.getD_cons_succ, List.take_succ_cons]
      by_cases hb : isTailorBullet l = true
      · rw [List.countP_cons_of_pos _ _ hb]
        by_cases h1 : rep < rw.length
        · rw [tailorLoop_cons_pos rw l ls rep h1 hb]
          simp only [List.getD_cons_succ]
          rw [ih (rep + 1) j hj]
          have harith : rep + 1 + (ls.take j).countP isTailorBullet =
              rep + ((ls.take j).countP isTailorBullet + 1) := by omega
          rw [harith]
        · rw [tailorLoop_cons_neg rw l ls rep (by tauto)]
          simp only [List.getD_cons_succ]
          rw [ih rep j hj]
          rw [if_neg (fun hand => absurd hand.2 (by omega)),
            if_neg (fun hand => absurd hand.2 (by omega))]
      · rw [List.countP_cons_of_neg _ _ hb, tailorLoop_cons_neg rw l ls rep (by tauto)]
        simp only [List.getD_cons_succ]
        exact ih rep j hj

theorem walk_mem_tailorOut (text : Str) (s : Suggestions) (x : Str)
    (hx : x ∈ (tailorLoop s.rewritten_experience (pyLines text) 0).1) :
    x ∈ tailorOut text s := by
  simp only [tailorOut, List.mem_append]
  tauto

/-! ## Claims C6 and C7 -/

/-- C6 (counterexample): the original line `" x"` (leading space) is not
substituted, yet does not appear character-for-character in the output of
`tailor_resume_text` — `_lines` strips every line first. -/
theorem tailor_passthrough_counterexample :
    tailorOut (chars " x") ⟨[], [], []⟩ = [chars "x"] ∧
    chars " x" ∉ tailorOut (chars " x") ⟨[], [], []⟩ := by decide

/-- C6 (amended): every trimmed original line (an entry of `_lines` of the
input) that is not substituted — that is, it fails the bullet heuristic or
the rewritten entries were already exhausted at its position — is passed
through unchanged at its position in the substitution walk, and hence
appears verbatim in the renderer's output. -/
theorem tailor_passthrough (text : Str) (s : Suggestions) (i : ℕ)
    (hi : i < (pyLines text).length)
    (hns : ¬(isTailorBullet ((pyLines text).getD i []) = true ∧
      ((pyLines text).take i).countP isTailorBullet < s.rewritten_experience.length)) :
    (tailorLoop s.rewritten_experience (pyLines text) 0).1.getD i [] =
      (pyLines text).getD i [] ∧
    (pyLines text).getD i [] ∈ tailorOut text s := by
  have hlen := tailorLoop_fst_length s.rewritten_experience (pyLines text) 0
  have hw := tailorLoop_getD s.rewritten_experience (pyLines text) 0 i hi
  rw [Nat.zero_add, if_neg hns] at hw
  refine ⟨hw, ?_⟩
  have hmem : (tailorLoop s.rewritten_experience (pyLines text) 0).1.getD i [] ∈
      (tailorLoop s.rewritten_experience (pyLines text) 0).1 := by
    rw [List.getD_eq_getElem _ _ (by omega)]
    exact List.getElem_mem _
  rw [hw] at hmem
  exact walk_mem_tailorOut text s _ hmem

/-- C6 (witness): the non-bullet line `"x"` passes through even though a
rewritten entry is available. -/
theorem tailor_passthrough_witness :
    (tailorLoop (⟨[], [], [chars "R"]⟩ : Suggestions).rewritten_experience
        (pyLines (chars "x")) 0).1.getD 0 [] = (pyLines (chars "x")).getD 0 [] ∧
    (pyLines (chars "x")).getD 0 [] ∈ tailorOut (chars "x") ⟨[], [], [chars "R"]⟩ :=
  tailor_passthrough (chars "x") ⟨[], [], [chars "R"]⟩ 0 (by decide) (by decide)

/-- C7: the number of original lines substituted by the tailoring walk is
`min(number of bullet-heuristic lines, number of rewritten entries)`, and
when there are more rewritten entries than bullet lines the leftover
entries are appended at the end of the output, after a blank line and the
"Experience (suggested improvements):" heading. -/
theorem tailor_substitution_count (text : Str) (s : Suggestions) :
    (tailorLoop s.rewritten_experience (pyLines text) 0).2 =
      min ((pyLines text).countP isTailorBullet) s.rewritten_experience.length ∧
    ((pyLines text).countP isTailorBullet < s.rewritten_experience.length →
      ∃ pre, tailorOut text s =
        pre ++ [] :: EXPERIENCE_HEADING ::
          (s.rewritten_experience.drop
            ((pyLines text).countP isTailorBullet)).map (fun e => chars "- " ++ e)) := by
  have hsnd := tailorLoop_snd s.rewritten_experience (pyLines text) 0
  have hfst : (tailorLoop s.rewritten_experience (pyLines text) 0).2 =
      min ((pyLines text).countP isTailorBullet) s.rewritten_experience.length := by
    rw [hsnd]; omega
  refine ⟨hfst, ?_⟩
  intro hlt
  have hsnd0 : (tailorLoop s.rewritten_experience (pyLines text) 0).2 =
      (pyLines text).countP isTailorBullet := by rw [hfst]; omega
  refine ⟨(if !s.suggested_summary.isEmpty then [s.suggested_summary, []] else []) ++
    (if !s.add_skills.isEmpty then
      [chars "Skills:", joinWith (chars ", ") s.add_skills, []] else []) ++
    (tailorLoop s.rewritten_experience (pyLines text) 0).1, ?_⟩
  simp only [tailorOut, hsnd0, if_pos hlt]
  simp [List.append_assoc]

/-- C7 (witness): one bullet line and two rewritten entries — one
substitution, the leftover entry appended under the heading. -/
theorem tailor_substitution_count_witness :
    ∃ pre, tailorOut (chars "- a\nplain") ⟨[], [], [chars "R1", chars "R2"]⟩ =
      pre ++ [] :: EXPERIENCE_HEADING ::
        ((⟨[], [], [chars "R1", chars "R2"]⟩ : Suggestions).rewritten_experience.drop
          ((pyLines (chars "- a\nplain")).countP isTailorBullet)).map
            (fun e => chars "- " ++ e) :=
  (tailor_substitution_count (chars "- a\nplain")
    ⟨[], [], [chars "R1", chars "R2"]⟩).2 (by decide)

/-! ## Claims C9 and C10 -/

theorem pySlice_length_le {α : Type} (m : ℤ) (hm : 0 ≤ m) (xs : List α) :
    (pySlice m xs).length ≤ m.toNat := by
  rw [pySlice, if_pos hm]
  simp [List.length_take]

theorem coachingCore_length_le (jd : ParsedJD) (n : ℤ) (hn : 0 ≤ n) :
    (coachingCore jd n).length ≤ n.toNat := by
  rw [coachingCore]
  simp only [List.length_append, List.length_map]
  have hA : (if jd.skills.isEmpty then [] else pySlice n jd.skills).length ≤ n.toNat := by
    by_cases h : jd.skills.isEmpty
    · simp [h]
    · rw [if_neg h]
      exact pySlice_length_le n hn jd.skills
  have hB := pySlice_length_le
    (max 0 (n - ((if jd.skills.isEmpty then [] else pySlice n jd.skills).length : ℤ)))
    (le_max_left 0 _) jd.responsibilities
  omega

/-- C9: for every parsed job description and every target count `n ≥ 0`,
`generate_coaching_questions` returns exactly `n` entries, and every entry
beyond the skill/responsibility-derived core is the fixed generic
question/tip pair. -/
theorem coaching_question_count (jd : ParsedJD) (n : ℤ) (hn : 0 ≤ n) :
    (generate_coaching_questions jd n).length = n.toNat ∧
    (generate_coaching_questions jd n).drop (coachingCore jd n).length =
      List.replicate (n.toNat - (coachingCore jd n).length) GENERIC_QUESTION := by
  have hcore := coachingCore_length_le jd n hn
  have hdef : generate_coaching_questions jd n =
      coachingCore jd n ++
        List.replicate (n - ((coachingCore jd n).length : ℤ)).toNat GENERIC_QUESTION := rfl
  constructor
  · rw [hdef]
    simp only [List.length_append, List.length_replicate]
    omega
  · rw [hdef, List.drop_left]
    congr 1
    omega

/-- C9 (witness): a job description with no skills and no responsibilities
still yields exactly 3 entries, all generic. -/
theorem coaching_question_count_witness :
    (generate_coaching_questions ⟨[], [], []⟩ 3).length = (3 : ℤ).toNat ∧
    (generate_coaching_questions ⟨[], [], []⟩ 3).drop
        (coachingCore ⟨[], [], []⟩ 3).length =
      List.replicate ((3 : ℤ).toNat - (coachingCore ⟨[], [], []⟩ 3).length)
        GENERIC_QUESTION :=
  coaching_question_count ⟨[], [], []⟩ 3 (by decide)

/-- C10: for every parsed job description with `k` extracted skills and
every negative target count `n < 0`, `generate_coaching_questions` returns
exactly `max(k + n, 0)` entries — the skill-based questions for all but the
last `min(|n|, k)` skills — with no responsibility-based questions and no
generic padding (Python negative-slice semantics of `skills[:n]`). -/
theorem coaching_negative_count (jd : ParsedJD) (n : ℤ) (hn : n < 0) :
    generate_coaching_questions jd n =
      (jd.skills.take (((jd.skills.length : ℤ) + n).toNat)).map mkSkillQuestion ∧
    (generate_coaching_questions jd n).length =
      ((jd.skills.length : ℤ) + n).toNat := by
  have hq1 : (if jd.skills.isEmpty then [] else pySlice n jd.skills) =
      jd.skills.take (((jd.skills.length : ℤ) + n).toNat) := by
    by_cases h : jd.skills.isEmpty
    · have he : jd.skills = [] := List.isEmpty_iff.mp h
      simp [h, he]
    · rw [if_neg h, pySlice, if_neg (by omega)]
  have hcore : coachingCore jd n =
      (jd.skills.take (((jd.skills.length : ℤ) + n).toNat)).map mkSkillQuestion := by
    rw [coachingCore, hq1]
    have hmax : max 0 (n -
        (((jd.skills.take (((jd.skills.length : ℤ) + n).toNat)).map
          mkSkillQuestion).length : ℤ)) = 0 := by omega
    rw [hmax]
    simp [pySlice]
  have hdef : generate_coaching_questions jd n =
      coachingCore jd n ++
        List.replicate (n - ((coachingCore jd n).length : ℤ)).toNat GENERIC_QUESTION := rfl
  have hrep : (n - ((coachingCore jd n).length : ℤ)).toNat = 0 := by omega
  have hgen : generate_coaching_questions jd n =
      (jd.skills.take (((jd.skills.length : ℤ) + n).toNat)).map mkSkillQuestion := by
    rw [hdef, hrep, hcore]
    simp
  refine ⟨hgen, ?_⟩
  rw [hgen]
  simp only [List.length_map, List.length_take]
  omega

/-- C10 (witness): three skills and target count −1 yield the first two
skill questions only. -/
theorem coaching_negative_count_witness :
    generate_coaching_questions ⟨[], [chars "a", chars "b", chars "c"], [chars "r"]⟩ (-1) =
      (([chars "a", chars "b", chars "c"] : List Str).take
        ((((3 : ℕ) : ℤ) + (-1)).toNat)).map mkSkillQuestion ∧
    (generate_coaching_questions ⟨[], [chars "a", chars "b", chars "c"], [chars "r"]⟩
        (-1)).length = (((3 : ℕ) : ℤ) + (-1)).toNat :=
  coaching_negative_count ⟨[], [chars "a", chars "b", chars "c"], [chars "r"]⟩ (-1)
    (by decide)

/-! ## The lexicographic order used by `sorted` -/

theorem lexLe_cons_iff (a b : Char) (as bs : Str) :
    lexLe (a :: as) (b :: bs) = true ↔ a < b ∨ (a = b ∧ lexLe as bs = true) := by
  simp only [lexLe]
  split_ifs with h1 h2
  · simp [h1]
  · simp [h1, h2]
  · simp [h1, h2]

theorem lexLe_total : ∀ a b : Str, lexLe a b = true ∨ lexLe b a = true
  | [], _ => Or.inl rfl
  | _ :: _, [] => Or.inr rfl
  | a :: as, b :: bs => by
    rcases lt_trichotomy a b with h | h | h
    · exact Or.inl ((lexLe_cons_iff a b as bs).mpr (Or.inl h))
    · subst h
      rcases lexLe_total as bs with ih | ih
      · exact Or.inl ((lexLe_cons_iff a a as bs).mpr (Or.inr ⟨rfl, ih⟩))
      · exact Or.inr ((lexLe_cons_iff a a bs as).mpr (Or.inr ⟨rfl, ih⟩))
    · exact Or.inr ((lexLe_cons_iff b a bs as).mpr (Or.inl h))

theorem lexLe_trans : ∀ a b c : Str,
    lexLe a b = true → lexLe b c = true → lexLe a c = true
  | [], _, _, _, _ => rfl
  | _ :: _, [], _, h1, _ => by simp [lexLe] at h1
  | _ :: _, _ :: _, [], _, h2 => by simp [lexLe] at h2
  | a :: as, b :: bs, c :: cs, h1, h2 => by
    rcases (lexLe_cons_iff a b as bs).mp h1 with hab | ⟨hab, htab⟩
    · rcases (lexLe_cons_iff b c bs cs).mp h2 with hbc | ⟨hbc, _⟩
      · exact (lexLe_cons_iff a c as cs).mpr (Or.inl (lt_trans hab hbc))
      · exact (lexLe_cons_iff a c as cs).mpr (Or.inl (hbc ▸ hab))
    · rcases (lexLe_cons_iff b c bs cs).mp h2 with hbc | ⟨hbc, htbc⟩
      · exact (lexLe_cons_iff a c as cs).mpr (Or.inl (hab ▸ hbc))
      · exact (lexLe_cons_iff a c as cs).mpr
          (Or.inr ⟨hab.trans hbc, lexLe_trans as bs cs htab htbc⟩)

theorem lexLe_ne_lex : ∀ a b : Str, lexLe a b = true → a ≠ b →
    List.Lex (· < ·) a b
  | [], [], _, hne => absurd rfl hne
  | [], _ :: _, _, _ => List.Lex.nil
  | _ :: _, [], h, _ => by simp [lexLe] at h
  | a :: as, b :: bs, h, hne => by
    rcases (lexLe_cons_iff a b as bs).mp h with hab | ⟨hab, htab⟩
    · exact List.Lex.rel hab
    · subst hab
      have htne : as ≠ bs := fun he => hne (by rw [he])
      exact List.Lex.cons (lexLe_ne_lex as bs htab htne)

/-! ## Characterising `match_and_score` -/

theorem list_toFinset_dedup (l : List Str) : l.dedup.toFinset = l.toFinset := by
  ext x
  simp [List.mem_dedup]

theorem match_and_score_snd_eq (resume : ParsedResume) (jd : ParsedJD)
    (hne : (lowerSet jd.skills).isEmpty = false) :
    (match_and_score resume jd).2 =
      List.insertionSort StrLe
        ((lowerSet jd.skills).filter
          (fun s => decide (s ∉ lowerSet resume.skills))) := by
  simp only [match_and_score]
  rw [if_neg (by simp [hne])]

theorem match_and_score_fst_eq (resume : ParsedResume) (jd : ParsedJD)
    (hne : (lowerSet jd.skills).isEmpty = false) :
    (match_and_score resume jd).1 =
      round1 (100 * (((lowerSet resume.skills).filter
          (fun s => decide (s ∈ lowerSet jd.skills))).length : ℚ) /
        ((lowerSet jd.skills).length : ℚ)) := by
  simp only [match_and_score]
  rw [if_neg (by simp [hne])]

theorem mem_match_missing (resume : ParsedResume) (jd : ParsedJD) (s : Str) :
    s ∈ (match_and_score resume jd).2 ↔
      ((lowerSet jd.skills).isEmpty = false ∧
       s ∈ lowerSet jd.skills ∧ s ∉ lowerSet resume.skills) := by
  by_cases h : (lowerSet jd.skills).isEmpty
  · simp only [match_and_score]
    rw [if_pos h]
    simp [h]
  · have hne : (lowerSet jd.skills).isEmpty = false := by simpa using h
    rw [match_and_score_snd_eq resume jd hne,
      (List.perm_insertionSort StrLe _).mem_iff]
    simp [List.mem_filter, hne]

theorem match_missing_sorted (resume : ParsedResume) (jd : ParsedJD) :
    List.Pairwise (fun a b : Str => List.Lex (· < ·) a b)
      (match_and_score resume jd).2 := by
  by_cases h : (lowerSet jd.skills).isEmpty
  · simp only [match_and_score]
    rw [if_pos h]
    simp
  · have hne : (lowerSet jd.skills).isEmpty = false := by simpa using h
    rw [match_and_score_snd_eq resume jd hne]
    have hsorted : List.Sorted StrLe (List.insertionSort StrLe
        ((lowerSet jd.skills).filter
          (fun s => decide (s ∉ lowerSet resume.skills)))) :=
      @List.sorted_insertionSort Str StrLe _ ⟨lexLe_total⟩ ⟨lexLe_trans⟩ _
    have hnodup : (List.insertionSort StrLe
        ((lowerSet jd.skills).filter
          (fun s => decide (s ∉ lowerSet resume.skills)))).Nodup :=
      ((List.perm_insertionSort StrLe _).nodup_iff).mpr
        ((List.nodup_dedup _).filter _)
    exact (hsorted.and hnodup).imp (fun h => lexLe_ne_lex _ _ h.1 h.2)

/-! ## Claims C3 and C8 -/

/-- C3: `match_and_score` returns `(0.0, [])` when the case-insensitive
job-description skill set is empty; otherwise the score is
`100 · |resume ∩ jd| / |jd|` over the lower-cased skill sets, rounded to
one decimal place, and `missing` enumerates exactly the lower-cased jd
skills absent from the resume set, in strictly ascending lexicographic
order.  In particular, resume skills `{"Python","SQL"}` against jd skills
`{"python","Java","SQL"}` yield score 66.7 and missing `["java"]`. -/
theorem match_and_score_spec :
    (∀ (resume : ParsedResume) (jd : ParsedJD),
      ((jd.skills.map toLowerStr).toFinset = ∅ →
        match_and_score resume jd = (0, [])) ∧
      ((jd.skills.map toLowerStr).toFinset ≠ ∅ →
        (match_and_score resume jd).1 =
          round1 (100 * (((resume.skills.map toLowerStr).toFinset ∩
              (jd.skills.map toLowerStr).toFinset).card : ℚ) /
            ((jd.skills.map toLowerStr).toFinset.card : ℚ)) ∧
        (∀ s : Str, s ∈ (match_and_score resume jd).2 ↔
          s ∈ (jd.skills.map toLowerStr).toFinset \
            (resume.skills.map toLowerStr).toFinset) ∧
        List.Pairwise (fun a b : Str => List.Lex (· < ·) a b)
          (match_and_score resume jd).2)) ∧
    match_and_score ⟨[], [chars "Python", chars "SQL"], []⟩
        ⟨chars "T", [chars "python", chars "Java", chars "SQL"], []⟩ =
      (667 / 10, [chars "java"]) := by
  have hgen : ∀ (resume : ParsedResume) (jd : ParsedJD),
      ((jd.skills.map toLowerStr).toFinset = ∅ →
        match_and_score resume jd = (0, [])) ∧
      ((jd.skills.map toLowerStr).toFinset ≠ ∅ →
        (match_and_score resume jd).1 =
          round1 (100 * (((resume.skills.map toLowerStr).toFinset ∩
              (jd.skills.map toLowerStr).toFinset).card : ℚ) /
            ((jd.skills.map toLowerStr).toFinset.card : ℚ)) ∧
        (∀ s : Str, s ∈ (match_and_score resume jd).2 ↔
          s ∈ (jd.skills.map toLowerStr).toFinset \
            (resume.skills.map toLowerStr).toFinset) ∧
        List.Pairwise (fun a b : Str => List.Lex (· < ·) a b)
          (match_and_score resume jd).2) := by
    intro resume jd
    constructor
    · intro hempty
      have hnil : jd.skills.map toLowerStr = [] :=
        (List.toFinset_eq_empty_iff _).mp hempty
      simp only [match_and_score]
      rw [if_pos (by simp [lowerSet, hnil])]
    · intro hne
      have hmapne : jd.skills.map toLowerStr ≠ [] := by
        intro hl
        exact hne (by rw [hl]; simp)
      have hne' : (lowerSet jd.skills).isEmpty = false := by
        simp [lowerSet, List.isEmpty_iff, List.dedup_eq_nil, hmapne]
      refine ⟨?_, ?_, match_missing_sorted resume jd⟩
      · rw [match_and_score_fst_eq resume jd hne']
        have hm : ((lowerSet resume.skills).filter
            (fun s => decide (s ∈ lowerSet jd.skills))).length =
            ((resume.skills.map toLowerStr).toFinset ∩
              (jd.skills.map toLowerStr).toFinset).card := by
          have hnodup : ((lowerSet resume.skills).filter
              (fun s => decide (s ∈ lowerSet jd.skills))).Nodup :=
            (List.nodup_dedup _).filter _
          rw [← List.toFinset_card_of_nodup hnodup]
          congr 1
          simp only [lowerSet]
          rw [List.toFinset_filter, list_toFinset_dedup,
            ← Finset.filter_mem_eq_inter]
          apply Finset.filter_congr
          intro x _
          simp [List.mem_dedup, List.mem_toFinset]
        have hj : (lowerSet jd.skills).length =
            (jd.skills.map toLowerStr).toFinset.card := by
          simp only [lowerSet]
          rw [← List.toFinset_card_of_nodup (List.nodup_dedup _),
            list_toFinset_dedup]
        rw [hm, hj]
      · intro s
        have hskne : jd.skills ≠ [] := fun h => hmapne (by simp [h])
        rw [mem_match_missing]
        simp [hne', lowerSet, List.mem_dedup, List.mem_toFinset,
          Finset.mem_sdiff, hskne]
  refine ⟨hgen, ?_⟩
  have h := (hgen ⟨[], [chars "Python", chars "SQL"], []⟩
      ⟨chars "T", [chars "python", chars "Java", chars "SQL"], []⟩).2 (by decide)
  have h2 : (match_and_score ⟨[], [chars "Python", chars "SQL"], []⟩
      ⟨chars "T", [chars "python", chars "Java", chars "SQL"], []⟩).2 =
        [chars "java"] := by decide
  have hc1 : ((([chars "Python", chars "SQL"] : List Str).map toLowerStr).toFinset ∩
      (([chars "python", chars "Java", chars "SQL"] : List Str).map
        toLowerStr).toFinset).card = 2 := by decide
  have hc2 : (([chars "python", chars "Java", chars "SQL"] : List Str).map
      toLowerStr).toFinset.card = 3 := by decide
  have h1 : (match_and_score ⟨[], [chars "Python", chars "SQL"], []⟩
      ⟨chars "T", [chars "python", chars "Java", chars "SQL"], []⟩).1 =
        667 / 10 := by
    rw [h.1, hc1, hc2, round1, roundHalfEven]
    norm_num
  exact Prod.ext h1 h2

/-- C3 (witness): the degenerate empty-jd case at a concrete input. -/
theorem match_and_score_spec_witness :
    match_and_score ⟨[], [], []⟩ ⟨[], [], []⟩ = (0, []) :=
  (match_and_score_spec.1 ⟨[], [], []⟩ ⟨[], [], []⟩).1 (by decide)

/-- C8: the `missing` list of `match_and_score` is a subset of the
lower-cased job-description skill set and disjoint from the lower-cased
resume skill set, and `add_skills` is exactly the prefix of `missing`
truncated to at most 10 entries. -/
theorem missing_invariant (resume : ParsedResume) (jd : ParsedJD) (m : ℕ) :
    (∀ s ∈ (match_and_score resume jd).2,
      s ∈ (jd.skills.map toLowerStr).toFinset ∧
      s ∉ (resume.skills.map toLowerStr).toFinset) ∧
    (suggest_resume_updates resume jd m).add_skills =
      (match_and_score resume jd).2.take 10 := by
  constructor
  · intro s hs
    rw [mem_match_missing] at hs
    obtain ⟨-, h2, h3⟩ := hs
    constructor
    · simpa [lowerSet, List.mem_dedup, List.mem_toFinset] using h2
    · simpa [lowerSet, List.mem_dedup, List.mem_toFinset] using h3
  · rfl

/-- C8 (witness): at resume skills `[]` and jd skills `["go"]`, the missing
skill `"go"` lies in the jd set and outside the resume set, and
`add_skills` is the 10-truncated missing list. -/
theorem missing_invariant_witness :
    (chars "go" ∈ (((⟨[], [chars "go"], []⟩ : ParsedJD)).skills.map
        toLowerStr).toFinset ∧
     chars "go" ∉ (((⟨[], [], []⟩ : ParsedResume)).skills.map
        toLowerStr).toFinset) ∧
    (suggest_resume_updates ⟨[], [], []⟩ ⟨[], [chars "go"], []⟩ 6).add_skills =
      (match_and_score ⟨[], [], []⟩ ⟨[], [chars "go"], []⟩).2.take 10 :=
  ⟨(missing_invariant ⟨[], [], []⟩ ⟨[], [chars "go"], []⟩ 6).1 (chars "go")
      (by decide),
   (missing_invariant ⟨[], [], []⟩ ⟨[], [chars "go"], []⟩ 6).2⟩
